import Mathlib

/-
Verification of the mincaml compiler front-end sources.

The definitions below are shallow embeddings of the Rust sources:
  * src/type_check.rs : the type algebra, substitutions, norm_ty, unify and
    the type checker type_check_ / type_check;
  * src/var.rs        : the variable identity model (four variants, equality
    by unique tag, Display instances);
  * src/utils.rs      : base62_encode.

Rust HashMap values are modelled as association lists whose observable
behaviour (lookup after insert / remove) matches the map: insert replaces
any previous entry for the key, remove deletes it.

The Rust unifier has no occurs check, so both norm_ty and unify can diverge
on cyclic substitutions.  They are therefore embedded with an explicit fuel
parameter: a result of none models divergence, and any terminating run of
the Rust code is reproduced by every sufficiently large fuel.  norm_ty needs
at most (number of entries in the substitution) + 1 steps whenever the Rust
loop terminates, since a terminating chain of variable links never repeats a
key; hence it is given exactly that fuel and none is returned precisely on
the cyclic (diverging) chains.
-/

/-- Lookup in an association list: the first entry with the given key.
Models HashMap get. -/
def lookupA {α β : Type} [DecidableEq α] (k : α) : List (α × β) → Option β
  | [] => none
  | (k2, v) :: rest => if k2 = k then some v else lookupA k rest

/-- Remove every entry with the given key.  Models HashMap remove: the key is
gone afterwards (a shadowed binding is not restored). -/
def eraseA {α β : Type} [DecidableEq α] (k : α) : List (α × β) → List (α × β)
  | [] => []
  | (k2, v) :: rest => if k2 = k then eraseA k rest else (k2, v) :: eraseA k rest

/-- Insert, replacing any previous entry for the key.  Models HashMap insert. -/
def insertA {α β : Type} [DecidableEq α] (k : α) (v : β) (l : List (α × β)) :
    List (α × β) :=
  (k, v) :: eraseA k l

/-- Type variables are represented as unique integers (src/type_check.rs, TyVar). -/
abbrev TyVar := Nat

/-- The type algebra of src/type_check.rs (enum Type). -/
inductive Ty : Type
  | Unit : Ty
  | Bool : Ty
  | Int : Ty
  | Float : Ty
  | Fun (args : List Ty) (ret : Ty) : Ty
  | Tuple (args : List Ty) : Ty
  | Array (elem : Ty) : Ty
  | Var (v : TyVar) : Ty

/-- Type errors of src/type_check.rs (enum TypeErr). -/
inductive TypeErr : Type
  | UnifyError (t1 t2 : Ty) : TypeErr
  | UnboundVar (name : String) : TypeErr

/-- Substitution: mapping from type-variable tag to type (HashMap in the source). -/
abbrev Subst := List (Nat × Ty)

/-- Fueled chain walk of norm_ty (src/type_check.rs lines 255-271): follow Var
links through the substitution until a non-Var type or an unbound Var. -/
def normF : Nat → Subst → Ty → Option Ty
  | 0, _, _ => none
  | fuel + 1, s, ty =>
    match ty with
    | .Var v =>
      match lookupA v s with
      | none => some (.Var v)
      | some ty2 => normF fuel s ty2
    | other => some other

/-- norm_ty of src/type_check.rs.  Fuel (length + 1) suffices for every
terminating chain (its keys are pairwise distinct), so none is returned
exactly when the Rust loop diverges on a cyclic chain. -/
def norm_ty (s : Subst) (ty : Ty) : Option Ty :=
  normF (s.length + 1) s ty

/-- The argument loop of unify's Fun and Tuple cases: unify pairwise in order,
threading the substitution, stopping at the first error (the zip in
src/type_check.rs lines 294-296 and 310-312).  The recursive unify is passed
in as a parameter. -/
def unifyArgs (rec : Subst → Ty → Ty → Option (Except TypeErr Subst)) :
    Subst → List Ty → List Ty → Option (Except TypeErr Subst)
  | s, [], _ => some (.ok s)
  | s, _ :: _, [] => some (.ok s)
  | s, t1 :: ts1, t2 :: ts2 =>
    match rec s t1 t2 with
    | some (.ok s2) => unifyArgs rec s2 ts1 ts2
    | r => r

/-- unify of src/type_check.rs (lines 273-318), with fuel for the recursion
(the Rust function can diverge through cyclic substitutions).  Both sides are
first resolved to normal form, then the match arms follow the source order:
matching ground heads; Fun vs Fun (arity check, pairwise arguments, then
returns); Var on either side (bind it, no occurs check, left bound to right
when both are variables); Tuple vs Tuple; Array vs Array; otherwise a
UnifyError carrying the two normal forms. -/
def unify : Nat → Subst → Ty → Ty → Option (Except TypeErr Subst)
  | 0, _, _, _ => none
  | fuel + 1, substs, ty1, ty2 =>
    match norm_ty substs ty1, norm_ty substs ty2 with
    | some n1, some n2 =>
      match n1, n2 with
      | .Unit, .Unit => some (.ok substs)
      | .Bool, .Bool => some (.ok substs)
      | .Int, .Int => some (.ok substs)
      | .Float, .Float => some (.ok substs)
      | .Fun args1 ret1, .Fun args2 ret2 =>
        if args1.length ≠ args2.length then
          some (.error (.UnifyError (.Fun args1 ret1) (.Fun args2 ret2)))
        else
          match unifyArgs (unify fuel) substs args1 args2 with
          | some (.ok s2) => unify fuel s2 ret1 ret2
          | r => r
      | .Var v, t => some (.ok (insertA v t substs))
      | t, .Var v => some (.ok (insertA v t substs))
      | .Tuple args1, .Tuple args2 =>
        if args1.length ≠ args2.length then
          some (.error (.UnifyError (.Tuple args1) (.Tuple args2)))
        else
          unifyArgs (unify fuel) substs args1 args2
      | .Array e1, .Array e2 => unify fuel substs e1 e2
      | _, _ => some (.error (.UnifyError n1 n2))
    | _, _ => none

example : unify 1 [] (.Var 0) .Int = some (.ok [(0, .Int)]) := rfl

example : unify 1 [] (.Fun [.Int] .Int) (.Fun [.Int, .Int] .Int)
    = some (.error (.UnifyError (.Fun [.Int] .Int) (.Fun [.Int, .Int] .Int))) := rfl

example : unify 3 [] (.Fun [.Var 0] (.Var 1)) (.Fun [.Int] .Bool)
    = some (.ok [(1, .Bool), (0, .Int)]) := rfl

/-- Structural equality of two types where structural comparison resolves type
variables through the substitution map (the comparison the spec uses to state
the unifier's idempotence property).  A variable bound in the substitution may
be replaced by its binding on either side; a type is equal to itself; equal
head constructors are compared componentwise. -/
inductive UnifEq (s : Subst) : Ty → Ty → Prop
  | refl (t : Ty) : UnifEq s t t
  | funCong {args1 args2 : List Ty} {ret1 ret2 : Ty}
      (hlen : args1.length = args2.length)
      (hargs : ∀ p, p ∈ args1.zip args2 → UnifEq s p.1 p.2)
      (hret : UnifEq s ret1 ret2) :
      UnifEq s (.Fun args1 ret1) (.Fun args2 ret2)
  | tupleCong {args1 args2 : List Ty}
      (hlen : args1.length = args2.length)
      (hargs : ∀ p, p ∈ args1.zip args2 → UnifEq s p.1 p.2) :
      UnifEq s (.Tuple args1) (.Tuple args2)
  | arrayCong {t1 t2 : Ty} (h : UnifEq s t1 t2) : UnifEq s (.Array t1) (.Array t2)
  | varL {v : Nat} {t u : Ty} (hv : lookupA v s = some t) (h : UnifEq s t u) :
      UnifEq s (.Var v) u
  | varR {v : Nat} {t u : Ty} (hv : lookupA v s = some t) (h : UnifEq s u t) :
      UnifEq s u (.Var v)

/-- One substitution extends another: every binding of the first is a binding
of the second. -/
def SubExt (s s2 : Subst) : Prop :=
  ∀ v t, lookupA v s = some t → lookupA v s2 = some t

/-- The second substitution is obtained from the first by inserting bindings
for keys that were unbound at the time of insertion, which is the only way
unify ever grows the substitution. -/
inductive FreshExt : Subst → Subst → Prop
  | refl (s : Subst) : FreshExt s s
  | step {s s2 : Subst} (v : Nat) (t : Ty) (h : FreshExt s s2)
      (hfree : lookupA v s2 = none) : FreshExt s (insertA v t s2)

theorem lookupA_eraseA {α β : Type} [DecidableEq α] (k k2 : α) (l : List (α × β))
    (hne : k2 ≠ k) : lookupA k (eraseA k2 l) = lookupA k l := by
  induction l with
  | nil => rfl
  | cons p rest ih =>
    obtain ⟨k3, v⟩ := p
    by_cases h3 : k3 = k2
    · subst h3
      simp [eraseA, lookupA, ih, hne]
    · simp [eraseA, lookupA, h3, ih]

theorem lookupA_insertA {α β : Type} [DecidableEq α] (k k2 : α) (v : β)
    (l : List (α × β)) :
    lookupA k (insertA k2 v l) = if k2 = k then some v else lookupA k l := by
  by_cases h : k2 = k
  · simp [insertA, lookupA, h]
  · simp [insertA, lookupA, h, lookupA_eraseA k k2 l h]

theorem freshExt_subExt {s s2 : Subst} (h : FreshExt s s2) : SubExt s s2 := by
  induction h with
  | refl => exact fun v t hv => hv
  | step v t h2 hfree ih =>
    intro w u hw
    have hw2 := ih w u hw
    have hne : v ≠ w := by
      intro he; subst he; rw [hfree] at hw2; exact Option.noConfusion hw2
    rw [lookupA_insertA, if_neg hne]; exact hw2

theorem freshExt_trans {s1 s2 s3 : Subst} (h1 : FreshExt s1 s2)
    (h2 : FreshExt s2 s3) : FreshExt s1 s3 := by
  induction h2 with
  | refl => exact h1
  | step v t h3 hfree ih => exact FreshExt.step v t ih hfree

theorem unifEq_subExt {s s2 : Subst} {t1 t2 : Ty} (hs : SubExt s s2)
    (h : UnifEq s t1 t2) : UnifEq s2 t1 t2 := by
  induction h with
  | refl t => exact UnifEq.refl t
  | funCong hlen hargs hret iha ihr =>
    exact UnifEq.funCong hlen (fun p hp => iha p hp) ihr
  | tupleCong hlen hargs iha => exact UnifEq.tupleCong hlen (fun p hp => iha p hp)
  | arrayCong h ih => exact UnifEq.arrayCong ih
  | varL hv h ih => exact UnifEq.varL (hs _ _ hv) ih
  | varR hv h ih => exact UnifEq.varR (hs _ _ hv) ih

/-- Walking to normal form only follows bindings of the substitution, so the
result is UnifEq-equal in any extension: whatever is equal to the normal form
is equal to the original type. -/
theorem normF_unifEq_left {fuel : Nat} {s s2 : Subst} {t u w : Ty}
    (hs : SubExt s s2) (hn : normF fuel s t = some u) (h : UnifEq s2 u w) :
    UnifEq s2 t w := by
  induction fuel generalizing t with
  | zero => exact absurd hn (by simp [normF])
  | succ fuel ih =>
    match t with
    | .Unit | .Bool | .Int | .Float | .Fun _ _ | .Tuple _ | .Array _ =>
      simp [normF] at hn; subst hn; exact h
    | .Var v =>
      simp only [normF] at hn
      cases hv : lookupA v s with
      | none => rw [hv] at hn; simp at hn; subst hn; exact h
      | some t3 =>
        rw [hv] at hn
        exact UnifEq.varL (hs _ _ hv) (ih hn)

theorem normF_unifEq_right {fuel : Nat} {s s2 : Subst} {t u w : Ty}
    (hs : SubExt s s2) (hn : normF fuel s t = some u) (h : UnifEq s2 w u) :
    UnifEq s2 w t := by
  induction fuel generalizing t with
  | zero => exact absurd hn (by simp [normF])
  | succ fuel ih =>
    match t with
    | .Unit | .Bool | .Int | .Float | .Fun _ _ | .Tuple _ | .Array _ =>
      simp [normF] at hn; subst hn; exact h
    | .Var v =>
      simp only [normF] at hn
      cases hv : lookupA v s with
      | none => rw [hv] at hn; simp at hn; subst hn; exact h
      | some t3 =>
        rw [hv] at hn
        exact UnifEq.varR (hs _ _ hv) (ih hn)

theorem subExt_refl (s : Subst) : SubExt s s := fun _ _ hv => hv

theorem norm_ty_unifEq_both {s s2 : Subst} {t1 t2 n1 n2 : Ty} (hs : SubExt s s2)
    (h1 : norm_ty s t1 = some n1) (h2 : norm_ty s t2 = some n2)
    (h : UnifEq s2 n1 n2) : UnifEq s2 t1 t2 := by
  unfold norm_ty at h1 h2
  exact normF_unifEq_left hs h1 (normF_unifEq_right hs h2 h)

/-- When the walk to normal form ends at a variable, that variable is unbound. -/
theorem normF_var_unbound {fuel : Nat} {s : Subst} {t : Ty} {v : Nat}
    (hn : normF fuel s t = some (.Var v)) : lookupA v s = none := by
  induction fuel generalizing t with
  | zero => exact absurd hn (by simp [normF])
  | succ fuel ih =>
    match t with
    | .Unit | .Bool | .Int | .Float | .Fun _ _ | .Tuple _ | .Array _ =>
      simp [normF] at hn
    | .Var w =>
      simp only [normF] at hn
      cases hv : lookupA w s with
      | none => rw [hv] at hn; simp at hn; subst hn; exact hv
      | some t3 => rw [hv] at hn; exact ih hn

theorem norm_ty_var_unbound {s : Subst} {t : Ty} {v : Nat}
    (h : norm_ty s t = some (.Var v)) : lookupA v s = none := by
  unfold norm_ty at h
  exact normF_var_unbound h

/-- Soundness of the argument loop, parameterized by soundness of the
recursive calls it makes. -/
theorem unifyArgs_sound (rec : Subst → Ty → Ty → Option (Except TypeErr Subst))
    (hrec : ∀ s a b s2, rec s a b = some (.ok s2) → FreshExt s s2 ∧ UnifEq s2 a b) :
    ∀ (l1 l2 : List Ty) (s s2 : Subst),
      unifyArgs rec s l1 l2 = some (.ok s2) →
      FreshExt s s2 ∧ ∀ p, p ∈ l1.zip l2 → UnifEq s2 p.1 p.2 := by
  intro l1
  induction l1 with
  | nil =>
    intro l2 s s2 h
    simp [unifyArgs] at h
    subst h
    exact ⟨FreshExt.refl s, by simp⟩
  | cons t1 ts1 ih =>
    intro l2 s s2 h
    cases l2 with
    | nil =>
      simp [unifyArgs] at h
      subst h
      exact ⟨FreshExt.refl s, by simp⟩
    | cons t2 ts2 =>
      simp only [unifyArgs] at h
      split at h
      · rename_i s3 hr
        obtain ⟨he1, hu1⟩ := hrec s t1 t2 s3 hr
        obtain ⟨he2, hu2⟩ := ih ts2 s3 s2 h
        refine ⟨freshExt_trans he1 he2, ?_⟩
        intro p hp
        rw [List.zip_cons_cons] at hp
        cases hp with
        | head => exact unifEq_subExt (freshExt_subExt he2) hu1
        | tail _ hp2 => exact hu2 p hp2
      · rename_i hne
        exact absurd h (hne s2)

/-- Soundness of unify: a successful run extends the substitution only at
previously unbound keys, and makes the two input types structurally equal up
to resolving variables through the final substitution. -/
theorem unify_sound : ∀ (fuel : Nat) (s : Subst) (t1 t2 : Ty) (s2 : Subst),
    unify fuel s t1 t2 = some (.ok s2) → FreshExt s s2 ∧ UnifEq s2 t1 t2 := by
  intro fuel
  induction fuel with
  | zero => intro s t1 t2 s2 h; simp [unify] at h
  | succ fuel ih =>
    intro s t1 t2 s2 h
    simp only [unify] at h
    split at h
    · rename_i n1 n2 hn1 hn2
      split at h
      -- ground heads
      · simp at h; subst h
        exact ⟨FreshExt.refl s, norm_ty_unifEq_both (subExt_refl s) hn1 hn2 (UnifEq.refl _)⟩
      · simp at h; subst h
        exact ⟨FreshExt.refl s, norm_ty_unifEq_both (subExt_refl s) hn1 hn2 (UnifEq.refl _)⟩
      · simp at h; subst h
        exact ⟨FreshExt.refl s, norm_ty_unifEq_both (subExt_refl s) hn1 hn2 (UnifEq.refl _)⟩
      · simp at h; subst h
        exact ⟨FreshExt.refl s, norm_ty_unifEq_both (subExt_refl s) hn1 hn2 (UnifEq.refl _)⟩
      -- Fun vs Fun
      · rename_i args1 ret1 args2 ret2
        split at h
        · simp at h
        · rename_i hlen2
          have hlen : args1.length = args2.length := not_ne_iff.mp hlen2
          split at h
          · rename_i s3 heqA
            obtain ⟨heA, huA⟩ :=
              unifyArgs_sound (unify fuel) (fun s a b s2 h2 => ih s a b s2 h2)
                args1 args2 s s3 heqA
            obtain ⟨heR, huR⟩ := ih s3 ret1 ret2 s2 h
            refine ⟨freshExt_trans heA heR, ?_⟩
            apply norm_ty_unifEq_both (freshExt_subExt (freshExt_trans heA heR)) hn1 hn2
            exact UnifEq.funCong hlen
              (fun p hp => unifEq_subExt (freshExt_subExt heR) (huA p hp)) huR
          · rename_i hne
            exact absurd h (hne s2)
      -- Var on the left
      · rename_i v
        simp at h; subst h
        have hfree : lookupA v s = none := norm_ty_var_unbound hn1
        have hext : FreshExt s (insertA v n2 s) :=
          FreshExt.step v n2 (FreshExt.refl s) hfree
        refine ⟨hext, ?_⟩
        apply norm_ty_unifEq_both (freshExt_subExt hext) hn1 hn2
        exact UnifEq.varL (by rw [lookupA_insertA]; simp) (UnifEq.refl n2)
      -- Var on the right
      · rename_i v hnv
        simp at h; subst h
        have hfree : lookupA v s = none := norm_ty_var_unbound hn2
        have hext : FreshExt s (insertA v n1 s) :=
          FreshExt.step v n1 (FreshExt.refl s) hfree
        refine ⟨hext, ?_⟩
        apply norm_ty_unifEq_both (freshExt_subExt hext) hn1 hn2
        exact UnifEq.varR (by rw [lookupA_insertA]; simp) (UnifEq.refl n1)
      -- Tuple vs Tuple
      · rename_i args1 args2
        split at h
        · simp at h
        · rename_i hlen2
          have hlen : args1.length = args2.length := not_ne_iff.mp hlen2
          obtain ⟨heA, huA⟩ :=
            unifyArgs_sound (unify fuel) (fun s a b s2 h2 => ih s a b s2 h2)
              args1 args2 s s2 h
          refine ⟨heA, ?_⟩
          apply norm_ty_unifEq_both (freshExt_subExt heA) hn1 hn2
          exact UnifEq.tupleCong hlen huA
      -- Array vs Array
      · rename_i e1 e2
        obtain ⟨he, hu⟩ := ih s e1 e2 s2 h
        exact ⟨he, norm_ty_unifEq_both (freshExt_subExt he) hn1 hn2 (UnifEq.arrayCong hu)⟩
      -- mismatched heads
      · simp at h
    · simp at h

/-- A bound variable on the left of a resolving equality can be replaced by
its binding. -/
theorem unifEq_lookup_left {s : Subst} {x w : Ty} (h : UnifEq s x w) :
    ∀ (v : TyVar) (t : Ty), x = .Var v → lookupA v s = some t → UnifEq s t w := by
  induction h with
  | refl t0 =>
    intro v t hx hv
    subst hx
    exact UnifEq.varR hv (UnifEq.refl t)
  | funCong hlen hargs hret iha ihr => intro v t hx hv; exact absurd hx (by simp)
  | tupleCong hlen hargs iha => intro v t hx hv; exact absurd hx (by simp)
  | arrayCong h ih => intro v t hx hv; exact absurd hx (by simp)
  | varL hv0 h ih =>
    intro v t hx hv
    cases hx
    rw [hv0] at hv
    cases hv
    assumption
  | varR hv0 h ih =>
    intro v t hx hv
    subst hx
    exact UnifEq.varR hv0 (ih v t rfl hv)

/-- A bound variable on the right of a resolving equality can be replaced by
its binding. -/
theorem unifEq_lookup_right {s : Subst} {w x : Ty} (h : UnifEq s w x) :
    ∀ (v : TyVar) (t : Ty), x = .Var v → lookupA v s = some t → UnifEq s w t := by
  induction h with
  | refl t0 =>
    intro v t hx hv
    subst hx
    exact UnifEq.varL hv (UnifEq.refl t)
  | funCong hlen hargs hret iha ihr => intro v t hx hv; exact absurd hx (by simp)
  | tupleCong hlen hargs iha => intro v t hx hv; exact absurd hx (by simp)
  | arrayCong h ih => intro v t hx hv; exact absurd hx (by simp)
  | varR hv0 h ih =>
    intro v t hx hv
    cases hx
    rw [hv0] at hv
    cases hv
    assumption
  | varL hv0 h ih =>
    intro v t hx hv
    subst hx
    exact UnifEq.varL hv0 (ih v t rfl hv)

/-- Replacing a type by its normal form preserves resolving equality
(left-hand side). -/
theorem unifEq_peel_left {fuel : Nat} {s : Subst} {t u w : Ty}
    (hn : normF fuel s t = some u) (h : UnifEq s t w) : UnifEq s u w := by
  induction fuel generalizing t with
  | zero => exact absurd hn (by simp [normF])
  | succ fuel ih =>
    match t with
    | .Unit | .Bool | .Int | .Float | .Fun _ _ | .Tuple _ | .Array _ =>
      simp [normF] at hn; subst hn; exact h
    | .Var v =>
      simp only [normF] at hn
      cases hv : lookupA v s with
      | none => rw [hv] at hn; simp at hn; subst hn; exact h
      | some t3 =>
        rw [hv] at hn
        exact ih hn (unifEq_lookup_left h v t3 rfl hv)

/-- Replacing a type by its normal form preserves resolving equality
(right-hand side). -/
theorem unifEq_peel_right {fuel : Nat} {s : Subst} {t u w : Ty}
    (hn : normF fuel s t = some u) (h : UnifEq s w t) : UnifEq s w u := by
  induction fuel generalizing t with
  | zero => exact absurd hn (by simp [normF])
  | succ fuel ih =>
    match t with
    | .Unit | .Bool | .Int | .Float | .Fun _ _ | .Tuple _ | .Array _ =>
      simp [normF] at hn; subst hn; exact h
    | .Var v =>
      simp only [normF] at hn
      cases hv : lookupA v s with
      | none => rw [hv] at hn; simp at hn; subst hn; exact h
      | some t3 =>
        rw [hv] at hn
        exact ih hn (unifEq_lookup_right h v t3 rfl hv)

/-- C2: for every substitution s and types t1, t2, if unify(s, t1, t2)
succeeds with updated substitution s2, then t1 and t2 are structurally equal
where structural comparison resolves type variables through s2; in particular
whenever the normal forms of t1 and t2 under s2 exist, those normal forms are
structurally equal in the same resolving sense. -/
theorem claim_C2 (fuel : Nat) (s : Subst) (t1 t2 : Ty) (s2 : Subst)
    (h : unify fuel s t1 t2 = some (.ok s2)) :
    UnifEq s2 t1 t2 ∧
      ∀ u1 u2, norm_ty s2 t1 = some u1 → norm_ty s2 t2 = some u2 →
        UnifEq s2 u1 u2 := by
  have hu := (unify_sound fuel s t1 t2 s2 h).2
  refine ⟨hu, fun u1 u2 h1 h2 => ?_⟩
  unfold norm_ty at h1 h2
  exact unifEq_peel_right h2 (unifEq_peel_left h1 hu)

/-- Witness for C2: a concrete successful run, unifying Var 0 with Int
starting from the empty substitution. -/
theorem claim_C2_witness : UnifEq [(0, Ty.Int)] (Ty.Var 0) Ty.Int :=
  (claim_C2 1 [] (Ty.Var 0) Ty.Int [(0, Ty.Int)] rfl).1

/-- Whether the head constructor of a type is a unification variable. -/
def headIsVar : Ty → Bool
  | .Var _ => true
  | _ => false

mutual

/-- The type variable a occurs somewhere inside the type (used to state that
the unifier binds a variable even to a term containing it). -/
def occursIn (a : TyVar) : Ty → Bool
  | .Unit => false
  | .Bool => false
  | .Int => false
  | .Float => false
  | .Fun args ret => occursInList a args || occursIn a ret
  | .Tuple args => occursInList a args
  | .Array t => occursIn a t
  | .Var v => v == a

/-- The type variable a occurs inside one of the listed types. -/
def occursInList (a : TyVar) : List Ty → Bool
  | [] => false
  | t :: ts => occursIn a t || occursInList a ts

end

/-- A type whose head is not a Var is its own normal form. -/
theorem norm_ty_nonvar {s : Subst} {t : Ty} (h : headIsVar t = false) :
    norm_ty s t = some t := by
  cases t <;> simp_all [norm_ty, normF, headIsVar]

/-- An unbound variable is its own normal form. -/
theorem norm_ty_unbound {s : Subst} {v : TyVar} (h : lookupA v s = none) :
    norm_ty s (.Var v) = some (.Var v) := by
  simp [norm_ty, normF, h]

/-- C3: the unifier performs no occurs check: for an unbound type variable a
and a type t whose head is not a Var but which contains Var a inside it,
unify(s, Var a, t) succeeds and inserts the binding a - t into the
substitution instead of returning a UnifyError. -/
theorem claim_C3 (fuel : Nat) (s : Subst) (a : TyVar) (t : Ty)
    (hunb : lookupA a s = none) (hhead : headIsVar t = false)
    (_hocc : occursIn a t = true) :
    unify (fuel + 1) s (.Var a) t = some (.ok (insertA a t s)) := by
  have h1 : norm_ty s (.Var a) = some (.Var a) := norm_ty_unbound hunb
  have h2 : norm_ty s t = some t := norm_ty_nonvar hhead
  simp only [unify, h1, h2]

/-- Witness for C3: binding variable 0 to a function type containing Var 0,
from the empty substitution. -/
theorem claim_C3_witness :
    unify 1 [] (.Var 0) (.Fun [.Var 0] .Int)
      = some (.ok [(0, Ty.Fun [.Var 0] .Int)]) :=
  claim_C3 0 [] 0 (.Fun [.Var 0] .Int) rfl rfl
    (by simp [occursIn, occursInList])

/-- C5: when the left normal form is a variable, unify binds it to the right
normal form (in particular, when both normal forms are variables the left one
is bound to the right one); when only the right normal form is a variable,
it is bound to the left normal form; unify(s, Var a, Int) and
unify(s, Int, Var a) both succeed for an initially unbound a, and after
either call norm(s, Var a) = Int. -/
theorem claim_C5 :
    (∀ (fuel : Nat) (s : Subst) (t1 t2 : Ty) (v : TyVar) (n2 : Ty),
        norm_ty s t1 = some (.Var v) → norm_ty s t2 = some n2 →
        unify (fuel + 1) s t1 t2 = some (.ok (insertA v n2 s))) ∧
    (∀ (fuel : Nat) (s : Subst) (t1 t2 : Ty) (n1 : Ty) (v : TyVar),
        norm_ty s t1 = some n1 → headIsVar n1 = false →
        norm_ty s t2 = some (.Var v) →
        unify (fuel + 1) s t1 t2 = some (.ok (insertA v n1 s))) ∧
    (unify 1 [] (.Var 0) .Int = some (.ok [(0, Ty.Int)]) ∧
      norm_ty [(0, Ty.Int)] (.Var 0) = some .Int) ∧
    (unify 1 [] .Int (.Var 0) = some (.ok [(0, Ty.Int)]) ∧
      norm_ty [(0, Ty.Int)] (.Var 0) = some .Int) := by
  refine ⟨?_, ?_, ⟨rfl, rfl⟩, ⟨rfl, rfl⟩⟩
  · intro fuel s t1 t2 v n2 h1 h2
    simp only [unify, h1, h2]
  · intro fuel s t1 t2 n1 v h1 hhead h2
    simp only [unify, h1, h2]
    cases n1 <;> first | rfl | simp [headIsVar] at hhead

/-- Witness for C5: part one applied at unify([], Var 0, Int), and part two
applied at unify([], Int, Var 0). -/
theorem claim_C5_witness :
    unify 1 [] (.Var 0) .Int = some (.ok [(0, Ty.Int)]) ∧
      unify 1 [] .Int (.Var 0) = some (.ok [(0, Ty.Int)]) :=
  ⟨claim_C5.1 0 [] (.Var 0) .Int 0 .Int rfl rfl,
    claim_C5.2.1 0 [] .Int (.Var 0) .Int 0 rfl rfl rfl⟩

/-- Sequential unification of a list of type pairs, left to right, threading
the substitution and stopping at the first failure.  Used to state that the
Fun case unifies its argument lists pairwise in order. -/
def unifyPairs (rec : Subst → Ty → Ty → Option (Except TypeErr Subst)) :
    Subst → List (Ty × Ty) → Option (Except TypeErr Subst)
  | s, [] => some (.ok s)
  | s, (t1, t2) :: ps =>
    match rec s t1 t2 with
    | some (.ok s2) => unifyPairs rec s2 ps
    | r => r

/-- The argument loop is the sequential pairwise unification of the zip of the
two argument lists. -/
theorem unifyArgs_eq_pairs
    (rec : Subst → Ty → Ty → Option (Except TypeErr Subst)) :
    ∀ (l1 l2 : List Ty) (s : Subst),
      unifyArgs rec s l1 l2 = unifyPairs rec s (l1.zip l2) := by
  intro l1
  induction l1 with
  | nil => intro l2 s; simp [unifyArgs, unifyPairs]
  | cons t1 ts1 ih =>
    intro l2 s
    cases l2 with
    | nil => simp [unifyArgs, unifyPairs]
    | cons t2 ts2 =>
      simp only [unifyArgs, List.zip_cons_cons, unifyPairs]
      cases rec s t1 t2 with
      | none => rfl
      | some r => cases r with
        | error e => rfl
        | ok s2 => exact ih ts2 s2

/-- C6: unifying two function types fails with a UnifyError carrying the two
normal forms whenever the argument lists have different lengths; with equal
lengths the argument types are unified pairwise in order and then the return
types; in particular unify(s, Fun([Int], Int), Fun([Int, Int], Int)) returns
a UnifyError for every substitution s. -/
theorem claim_C6 :
    (∀ (fuel : Nat) (s : Subst) (args1 : List Ty) (ret1 : Ty)
        (args2 : List Ty) (ret2 : Ty),
        args1.length ≠ args2.length →
        unify (fuel + 1) s (.Fun args1 ret1) (.Fun args2 ret2)
          = some (.error (.UnifyError (.Fun args1 ret1) (.Fun args2 ret2)))) ∧
    (∀ (fuel : Nat) (s : Subst) (args1 : List Ty) (ret1 : Ty)
        (args2 : List Ty) (ret2 : Ty),
        args1.length = args2.length →
        unify (fuel + 1) s (.Fun args1 ret1) (.Fun args2 ret2)
          = match unifyPairs (unify fuel) s (args1.zip args2) with
            | some (.ok s2) => unify fuel s2 ret1 ret2
            | r => r) ∧
    (∀ s : Subst,
        unify 1 s (.Fun [.Int] .Int) (.Fun [.Int, .Int] .Int)
          = some (.error (.UnifyError (.Fun [.Int] .Int)
              (.Fun [.Int, .Int] .Int)))) := by
  have hne : ∀ (fuel : Nat) (s : Subst) (args1 : List Ty) (ret1 : Ty)
      (args2 : List Ty) (ret2 : Ty),
      args1.length ≠ args2.length →
      unify (fuel + 1) s (.Fun args1 ret1) (.Fun args2 ret2)
        = some (.error (.UnifyError (.Fun args1 ret1) (.Fun args2 ret2))) := by
    intro fuel s args1 ret1 args2 ret2 hlen
    have h1 : norm_ty s (.Fun args1 ret1) = some (.Fun args1 ret1) :=
      norm_ty_nonvar rfl
    have h2 : norm_ty s (.Fun args2 ret2) = some (.Fun args2 ret2) :=
      norm_ty_nonvar rfl
    simp only [unify, h1, h2]
    rw [if_pos hlen]
  refine ⟨hne, ?_, ?_⟩
  · intro fuel s args1 ret1 args2 ret2 hlen
    have h1 : norm_ty s (.Fun args1 ret1) = some (.Fun args1 ret1) :=
      norm_ty_nonvar rfl
    have h2 : norm_ty s (.Fun args2 ret2) = some (.Fun args2 ret2) :=
      norm_ty_nonvar rfl
    simp only [unify, h1, h2]
    rw [if_neg (not_ne_iff.mpr hlen), unifyArgs_eq_pairs]
  · intro s
    exact hne 0 s [.Int] .Int [.Int, .Int] .Int (by simp)

/-- Witness for C6: the arity-mismatch example at the empty substitution. -/
theorem claim_C6_witness :
    unify 1 [] (.Fun [.Int] .Int) (.Fun [.Int, .Int] .Int)
      = some (.error (.UnifyError (.Fun [.Int] .Int)
          (.Fun [.Int, .Int] .Int))) :=
  claim_C6.1 0 [] [.Int] .Int [.Int, .Int] .Int (by decide)

/-- The AST consumed by the type checker.  The parser module is external to
these sources; the constructors and their field shapes are exactly those the
type checker matches on in src/type_check.rs (literal payloads that the
checker never reads are kept only where they do not force a numeric model,
so the Float literal payload is omitted). -/
inductive Expr : Type
  | Unit : Expr
  | Bool (b : Bool) : Expr
  | Int (n : Int) : Expr
  | Float : Expr
  | Not (e : Expr) : Expr
  | Neg (e : Expr) : Expr
  | Add (e1 e2 : Expr) : Expr
  | Sub (e1 e2 : Expr) : Expr
  | FNeg (e : Expr) : Expr
  | FAdd (e1 e2 : Expr) : Expr
  | FSub (e1 e2 : Expr) : Expr
  | FMul (e1 e2 : Expr) : Expr
  | FDiv (e1 e2 : Expr) : Expr
  | Eq (e1 e2 : Expr) : Expr
  | Le (e1 e2 : Expr) : Expr
  | If (e1 e2 e3 : Expr) : Expr
  | Let (id : String) (rhs : Expr) (body : Expr) : Expr
  | Var (x : String) : Expr
  | LetRec (name : String) (args : List String) (rhs : Expr) (body : Expr) : Expr
  | App (fn : Expr) (args : List Expr) : Expr
  | Tuple (args : List Expr) : Expr
  | LetTuple (bndrs : List String) (rhs : Expr) (body : Expr) : Expr
  | Array (e1 e2 : Expr) : Expr
  | Get (e1 e2 : Expr) : Expr
  | Put (e1 e2 e3 : Expr) : Expr

/-- The name-to-type environment (HashMap String Type in the source). -/
abbrev TyEnv := List (String × Ty)

/-- Sequencing in the combined divergence-or-type-error monad: none (possible
divergence of unify) and the first error are propagated, mirroring the Rust
question-mark operator. -/
def tbind {A B : Type} (x : Option (Except TypeErr A))
    (f : A → Option (Except TypeErr B)) : Option (Except TypeErr B) :=
  match x with
  | none => none
  | some (.error e) => some (.error e)
  | some (.ok a) => f a

/-- The successful state of a type_check_ call: the inferred type together
with the final values of the three pieces of mutable state the Rust function
threads (the fresh type-variable counter, the substitution, and the
name-to-type environment). -/
abbrev TCRes := Ty × Nat × Subst × TyEnv

/-- The iteration over sub-expression lists in the App and Tuple cases of
type_check_, collecting the inferred types in order and threading the state.
The recursive checker is passed in as a parameter. -/
def type_check_list
    (tc : Nat → Subst → TyEnv → Expr → Option (Except TypeErr TCRes)) :
    Nat → Subst → TyEnv → List Expr →
      Option (Except TypeErr (List Ty × Nat × Subst × TyEnv))
  | cnt, substs, env, [] => some (.ok ([], cnt, substs, env))
  | cnt, substs, env, e :: es =>
    tbind (tc cnt substs env e) fun (ty, cnt, substs, env) =>
      tbind (type_check_list tc cnt substs env es) fun (tys, cnt, substs, env) =>
        some (.ok (ty :: tys, cnt, substs, env))

/-- type_check_ of src/type_check.rs (lines 65-237), with fuel bounding the
recursion depth (needed only because the unifier it calls can diverge; every
terminating Rust run is reproduced by all sufficiently large fuels).  The
mutable state (tyvar counter, substitution, environment) is threaded
explicitly; the environment updates mirror HashMap insert and remove exactly,
so a binder insertion overwrites an outer binding of the same name and the
removal on scope exit deletes the name outright. -/
def type_check_ : Nat → Nat → Subst → TyEnv → Expr → Option (Except TypeErr TCRes)
  | 0, _, _, _, _ => none
  | fuel + 1, cnt, substs, env, expr =>
    match expr with
    | .Unit => some (.ok (.Unit, cnt, substs, env))
    | .Bool _ => some (.ok (.Bool, cnt, substs, env))
    | .Int _ => some (.ok (.Int, cnt, substs, env))
    | .Float => some (.ok (.Float, cnt, substs, env))
    | .Not e =>
      tbind (type_check_ fuel cnt substs env e) fun (e_ty, cnt, substs, env) =>
        tbind (unify fuel substs .Bool e_ty) fun substs =>
          some (.ok (.Bool, cnt, substs, env))
    | .Neg e =>
      tbind (type_check_ fuel cnt substs env e) fun (e_ty, cnt, substs, env) =>
        tbind (unify fuel substs .Int e_ty) fun substs =>
          some (.ok (.Int, cnt, substs, env))
    | .Add e1 e2 | .Sub e1 e2 =>
      tbind (type_check_ fuel cnt substs env e1) fun (e1_ty, cnt, substs, env) =>
        tbind (type_check_ fuel cnt substs env e2) fun (e2_ty, cnt, substs, env) =>
          tbind (unify fuel substs .Int e1_ty) fun substs =>
            tbind (unify fuel substs .Int e2_ty) fun substs =>
              some (.ok (.Int, cnt, substs, env))
    | .FNeg e =>
      tbind (type_check_ fuel cnt substs env e) fun (e_ty, cnt, substs, env) =>
        tbind (unify fuel substs .Float e_ty) fun substs =>
          some (.ok (.Float, cnt, substs, env))
    | .FAdd e1 e2 | .FSub e1 e2 | .FMul e1 e2 | .FDiv e1 e2 =>
      tbind (type_check_ fuel cnt substs env e1) fun (e1_ty, cnt, substs, env) =>
        tbind (type_check_ fuel cnt substs env e2) fun (e2_ty, cnt, substs, env) =>
          tbind (unify fuel substs .Float e1_ty) fun substs =>
            tbind (unify fuel substs .Float e2_ty) fun substs =>
              some (.ok (.Float, cnt, substs, env))
    | .Eq e1 e2 | .Le e1 e2 =>
      tbind (type_check_ fuel cnt substs env e1) fun (e1_ty, cnt, substs, env) =>
        tbind (type_check_ fuel cnt substs env e2) fun (e2_ty, cnt, substs, env) =>
          tbind (unify fuel substs e1_ty e2_ty) fun substs =>
            some (.ok (.Bool, cnt, substs, env))
    | .If e1 e2 e3 =>
      tbind (type_check_ fuel cnt substs env e1) fun (e1_ty, cnt, substs, env) =>
        tbind (type_check_ fuel cnt substs env e2) fun (e2_ty, cnt, substs, env) =>
          tbind (type_check_ fuel cnt substs env e3) fun (e3_ty, cnt, substs, env) =>
            tbind (unify fuel substs e1_ty .Bool) fun substs =>
              tbind (unify fuel substs e2_ty e3_ty) fun substs =>
                some (.ok (e2_ty, cnt, substs, env))
    | .Let id rhs body =>
      tbind (type_check_ fuel (cnt + 1) substs env rhs)
        fun (rhs_ty, cnt2, substs, env) =>
        tbind (unify fuel substs (.Var cnt) rhs_ty) fun substs =>
          tbind (type_check_ fuel cnt2 substs (insertA id (.Var cnt) env) body)
            fun (ret_ty, cnt2, substs, env) =>
            some (.ok (ret_ty, cnt2, substs, eraseA id env))
    | .Var x =>
      match lookupA x env with
      | some ty => some (.ok (ty, cnt, substs, env))
      | none => some (.error (.UnboundVar x))
    | .LetRec name args rhs body =>
      let arg_tys : List Ty := (List.range args.length).map fun i => .Var (cnt + i)
      let rhs_ty : Ty := .Var (cnt + args.length)
      let fun_ty : Ty := .Fun arg_tys rhs_ty
      let env2 := (args.zip arg_tys).foldl (fun e p => insertA p.1 p.2 e)
        (insertA name fun_ty env)
      tbind (type_check_ fuel (cnt + args.length + 1) substs env2 rhs)
        fun (rhs_ty2, cnt, substs, env) =>
        tbind (unify fuel substs rhs_ty rhs_ty2) fun substs =>
          tbind (type_check_ fuel cnt substs env body)
            fun (ret_ty, cnt, substs, env) =>
            some (.ok (ret_ty, cnt, substs,
              args.foldl (fun e a => eraseA a e) (eraseA name env)))
    | .App fn args =>
      tbind (type_check_list (type_check_ fuel) (cnt + 1) substs env args)
        fun (arg_tys, cnt2, substs, env) =>
        tbind (type_check_ fuel cnt2 substs env fn)
          fun (fun_ty2, cnt2, substs, env) =>
          tbind (unify fuel substs (.Fun arg_tys (.Var cnt)) fun_ty2) fun substs =>
            some (.ok (.Var cnt, cnt2, substs, env))
    | .Tuple args =>
      tbind (type_check_list (type_check_ fuel) cnt substs env args)
        fun (arg_tys, cnt, substs, env) =>
        some (.ok (.Tuple arg_tys, cnt, substs, env))
    | .LetTuple bndrs rhs body =>
      let bndr_tys : List Ty := (List.range bndrs.length).map fun i => .Var (cnt + i)
      let tuple_ty : Ty := .Tuple bndr_tys
      tbind (type_check_ fuel (cnt + bndrs.length) substs env rhs)
        fun (rhs_ty, cnt, substs, env) =>
        tbind (unify fuel substs rhs_ty tuple_ty) fun substs =>
          tbind (type_check_ fuel cnt substs
              ((bndrs.zip bndr_tys).foldl (fun e p => insertA p.1 p.2 e) env) body)
            fun (ret_ty, cnt, substs, env) =>
            some (.ok (ret_ty, cnt, substs,
              bndrs.foldl (fun e b => eraseA b e) env))
    | .Array e1 e2 =>
      tbind (type_check_ fuel cnt substs env e1) fun (e1_ty, cnt, substs, env) =>
        tbind (unify fuel substs e1_ty .Int) fun substs =>
          tbind (type_check_ fuel cnt substs env e2) fun (e2_ty, cnt, substs, env) =>
            some (.ok (.Array e2_ty, cnt, substs, env))
    | .Get e1 e2 =>
      tbind (type_check_ fuel (cnt + 1) substs env e1)
        fun (e1_ty, cnt2, substs, env) =>
        tbind (unify fuel substs e1_ty (.Array (.Var cnt))) fun substs =>
          tbind (type_check_ fuel cnt2 substs env e2)
            fun (e2_ty, cnt2, substs, env) =>
            tbind (unify fuel substs e2_ty .Int) fun substs =>
              some (.ok (.Var cnt, cnt2, substs, env))
    | .Put e1 e2 e3 =>
      tbind (type_check_ fuel (cnt + 1) substs env e1)
        fun (e1_ty, cnt2, substs, env) =>
        tbind (unify fuel substs e1_ty (.Array (.Var cnt))) fun substs =>
          tbind (type_check_ fuel cnt2 substs env e2)
            fun (e2_ty, cnt2, substs, env) =>
            tbind (unify fuel substs e2_ty .Int) fun substs =>
              tbind (type_check_ fuel cnt2 substs env e3)
                fun (e3_ty, cnt2, substs, env) =>
                tbind (unify fuel substs e3_ty (.Var cnt)) fun substs =>
                  some (.ok (.Unit, cnt2, substs, env))

/-- The initial type environment with the built-ins (mk_type_env in the
source): print_int of type Int to Unit. -/
def mk_type_env : TyEnv := insertA "print_int" (.Fun [.Int] .Unit) []

/-- type_check of src/type_check.rs (lines 58-63): run type_check_ from a
fresh counter, empty substitution and the built-in environment, returning
only the inferred type as the source function does. -/
def type_check (fuel : Nat) (expr : Expr) : Option (Except TypeErr Ty) :=
  match type_check_ fuel 0 [] mk_type_env expr with
  | some (.ok (ty, _, _, _)) => some (.ok ty)
  | some (.error e) => some (.error e)
  | none => none

example : type_check 8 (.Let "x" (.Int 1) (.Var "x")) = some (.ok (.Var 0)) := rfl

/-- C1 (failing input): the program
let x = 1 in (let x = 2 in x) + x
from the claim's own example.  The inner binder for x overwrites the outer
binding in the environment (HashMap insert) and the inner scope exit removes
the name outright (HashMap remove), so the final occurrence of x is reported
unbound instead of resolving to the outer binding: the checker rejects the
program with UnboundVar instead of accepting it. -/
theorem claim_C1 :
    type_check 12
        (.Let "x" (.Int 1)
          (.Add (.Let "x" (.Int 2) (.Var "x")) (.Var "x")))
      = some (.error (.UnboundVar "x")) := rfl

/-- C4: type checking let f = 1 in f 2 returns a UnifyError between
Fun([Int], alpha) and Int for some type variable alpha (the symmetric variant
of the claim's first form), and no typing result is produced. -/
theorem claim_C4 :
    ∃ a : TyVar,
      type_check 12 (.Let "f" (.Int 1) (.App (.Var "f") [.Int 2]))
          = some (.error (.UnifyError .Int (.Fun [.Int] (.Var a))))
        ∨ type_check 12 (.Let "f" (.Int 1) (.App (.Var "f") [.Int 2]))
          = some (.error (.UnifyError (.Fun [.Int] (.Var a)) .Int)) :=
  ⟨1, Or.inr rfl⟩

/-- The compiler phases that generate variables (src/var.rs, CompilerPhase). -/
inductive CompilerPhase : Type
  | Parser : CompilerPhase
  | TyChecker : CompilerPhase
  | KNormal : CompilerPhase
  | ANormal : CompilerPhase
  | ClosureConvert : CompilerPhase

/-- The phase indicator used in the display form of generated variables
(CompilerPhase::display_str). -/
def phase_display_str : CompilerPhase → String
  | .Parser => "p"
  | .TyChecker => "tc"
  | .KNormal => "kn"
  | .ANormal => "an"
  | .ClosureConvert => "cc"

/-- Variables of src/var.rs: four variants, each carrying a unique tag
(a nonzero 32-bit integer in the source, modelled as a natural number) and,
except for generated variables, a stored name. -/
inductive Var : Type
  | User (name : String) (uniq : Nat) : Var
  | Generated (phase : CompilerPhase) (uniq : Nat) : Var
  | Builtin (name : String) (uniq : Nat) : Var
  | External (name : String) (uniq : Nat) : Var

/-- Var::get_uniq: the unique tag of any variant. -/
def Var.get_uniq : Var → Nat
  | .User _ uniq => uniq
  | .Generated _ uniq => uniq
  | .Builtin _ uniq => uniq
  | .External _ uniq => uniq

/-- The PartialEq implementation for Var: equality compares only the unique
tags. -/
def varEq (v1 v2 : Var) : Bool :=
  v1.get_uniq == v2.get_uniq

/-- Var::name.  The source panics on a generated variable (they carry no
source name); the panic is modelled as none, and every other variant returns
its stored name. -/
def varName : Var → Option String
  | .User name _ => some name
  | .Generated _ _ => none
  | .Builtin name _ => some name
  | .External name _ => some name

/-- C7: two variables of any variants are equal exactly when their unique
tags are equal; the variant and any stored name or phase play no role, so a
User and a Builtin variable with the same tag compare equal. -/
theorem claim_C7 :
    (∀ v1 v2 : Var, varEq v1 v2 = true ↔ v1.get_uniq = v2.get_uniq) ∧
    varEq (.User "x" 5) (.Builtin "print_int" 5) = true ∧
    (∀ (n1 n2 : String) (p : CompilerPhase) (u : Nat),
      varEq (.User n1 u) (.Builtin n2 u) = true ∧
      varEq (.User n1 u) (.Generated p u) = true ∧
      varEq (.External n1 u) (.Generated p u) = true) := by
  refine ⟨fun v1 v2 => ?_, rfl, fun n1 n2 p u => ⟨?_, ?_, ?_⟩⟩ <;>
    simp [varEq, Var.get_uniq]

/-- C8: requesting the source name of a generated variable is the sole
failing (panicking) case of Var::name; on the three named variants it always
returns the stored name. -/
theorem claim_C8 :
    (∀ (p : CompilerPhase) (u : Nat), varName (.Generated p u) = none) ∧
    (∀ (n : String) (u : Nat), varName (.User n u) = some n) ∧
    (∀ (n : String) (u : Nat), varName (.Builtin n u) = some n) ∧
    (∀ (n : String) (u : Nat), varName (.External n u) = some n) ∧
    (∀ v : Var, varName v = none ↔ ∃ p u, v = .Generated p u) := by
  refine ⟨fun p u => rfl, fun n u => rfl, fun n u => rfl, fun n u => rfl, fun v => ?_⟩
  cases v <;> simp [varName]

/-- Little-endian digits of a number in a given base, via structural fuel
(fuel n suffices for every n).  Models the digit production of Rust's
integer formatting and of base62_encode. -/
def digitsLEFuel (b : Nat) : Nat → Nat → List Nat
  | 0, _ => []
  | fuel + 1, n => if n = 0 then [] else n % b :: digitsLEFuel b fuel (n / b)

/-- Little-endian digits of n in base b (empty for n = 0). -/
def digitsLE (b n : Nat) : List Nat :=
  digitsLEFuel b n n

/-- A decimal digit character. -/
def decDigitChar (d : Nat) : Char := Char.ofNat (48 + d)

/-- An uppercase hexadecimal digit character. -/
def hexDigitCharUpper (d : Nat) : Char :=
  if d < 10 then Char.ofNat (48 + d) else Char.ofNat (55 + d)

/-- Decimal rendering of a natural number, as Rust's Display for integers
prints the tag of a user variable. -/
def natToDec (n : Nat) : String :=
  if n = 0 then "0" else String.mk (((digitsLE 10 n).map decDigitChar).reverse)

/-- Rendering of a natural number as Rust's alternate uppercase hex format
prints the tag of a generated variable: a 0x prefix followed by uppercase
hexadecimal digits. -/
def natToHexUpper (n : Nat) : String :=
  if n = 0 then "0x0"
  else "0x" ++ String.mk (((digitsLE 16 n).map hexDigitCharUpper).reverse)

/-- The Display implementations of src/var.rs: a user variable prints as its
name, an underscore and the decimal tag; a generated variable prints as a
hash, the phase indicator, an underscore and the tag in 0x-prefixed uppercase
hexadecimal (the alternate uppercase hex format in the source); a builtin
variable prints as #builtin[name]; an external variable prints as #ext[name]. -/
def varDisplay : Var → String
  | .User name uniq => name ++ "_" ++ natToDec uniq
  | .Generated phase uniq => "#" ++ phase_display_str phase ++ "_" ++ natToHexUpper uniq
  | .Builtin name _ => "#builtin[" ++ name ++ "]"
  | .External name _ => "#ext[" ++ name ++ "]"

/-- C9 (counterexample): the generated variable of phase Parser with tag 10
displays as #p_0xA, not as #p_10, so the display form of a generated variable
is not the phase indicator, an underscore and the tag written like the
(decimal) tag of a user variable. -/
theorem claim_C9_counterexample :
    varDisplay (.Generated .Parser 10) = "#p_0xA" ∧ "#p_0xA" ≠ "#p_10" := by
  exact ⟨rfl, by decide⟩

/-- C9 (amended): the display form is determined by the variant as the claim
states, except that a generated variable prints its tag in 0x-prefixed
uppercase hexadecimal rather than in decimal: user name_tag with a decimal
tag, generated a hash, phase indicator, underscore and 0x-prefixed uppercase
hex tag, builtin #builtin[name], external #ext[name]. -/
theorem claim_C9 :
    (∀ (n : String) (u : Nat), varDisplay (.User n u) = n ++ "_" ++ natToDec u) ∧
    (∀ (p : CompilerPhase) (u : Nat),
      varDisplay (.Generated p u)
        = "#" ++ phase_display_str p ++ "_" ++ natToHexUpper u) ∧
    (∀ (n : String) (u : Nat), varDisplay (.Builtin n u) = "#builtin[" ++ n ++ "]") ∧
    (∀ (n : String) (u : Nat), varDisplay (.External n u) = "#ext[" ++ n ++ "]") ∧
    varDisplay (.User "x" 7) = "x_7" ∧
    varDisplay (.Generated .KNormal 27) = "#kn_0x1B" ∧
    varDisplay (.Builtin "print_int" 1) = "#builtin[print_int]" ∧
    varDisplay (.External "f" 2) = "#ext[f]" :=
  ⟨fun _ _ => rfl, fun _ _ => rfl, fun _ _ => rfl, fun _ _ => rfl,
    rfl, rfl, rfl, rfl⟩

/-- The digit characters of base62_encode (BASE62_CHARS in src/utils.rs). -/
def base62Chars : List Char :=
  "0123456789abcdefghijklmnopqrstuvwxyzABCDEFGHIJKLMNOPQRSTUVWXYZ".toList

/-- The character for one base-62 digit (the table index is always below 62,
so the default is never used). -/
def base62Char (i : Nat) : Char :=
  base62Chars.getD i (Char.ofNat 63)

/-- The loop of base62_encode (src/utils.rs lines 66-73): starting from
i = uniq mod 62 and r = uniq div 62, write the character of i and step to the
next digit while i is nonzero.  Fuel uniq + 1 is always enough. -/
def base62_go : Nat → Nat → Nat → List Char
  | 0, _, _ => []
  | fuel + 1, i, r =>
    if i = 0 then [] else base62Char i :: base62_go fuel (r % 62) (r / 62)

/-- base62_encode of src/utils.rs, producing the written character sequence. -/
def base62_encode (uniq : Nat) : List Char :=
  base62_go (uniq + 1) (uniq % 62) (uniq / 62)

/-- The encoding loop writes exactly the little-endian base-62 digits of its
input truncated at the first zero digit. -/
theorem base62_go_spec :
    ∀ (fuel n : Nat), n < fuel →
      base62_go fuel (n % 62) (n / 62)
        = ((Nat.digits 62 n).takeWhile (fun d => d != 0)).map base62Char := by
  intro fuel
  induction fuel with
  | zero => intro n h; omega
  | succ fuel ih =>
    intro n h
    by_cases h0 : n % 62 = 0
    · rw [base62_go, if_pos h0]
      rcases Nat.eq_zero_or_pos n with hn | hn
      · subst hn; simp
      · rw [Nat.digits_def' (by norm_num : (1:Nat) < 62) hn]
        simp [h0]
    · have hn : 0 < n := Nat.pos_of_ne_zero fun he => h0 (by simp [he])
      have hdiv : n / 62 < fuel :=
        lt_of_lt_of_le (Nat.div_lt_self hn (by norm_num)) (Nat.lt_succ_iff.mp h)
      rw [base62_go, if_neg h0, Nat.digits_def' (by norm_num : (1:Nat) < 62) hn]
      rw [List.takeWhile_cons_of_pos (by simp [h0])]
      simp only [List.map_cons]
      rw [ih (n / 62) hdiv]

/-- C10: base62_encode emits the base-62 digits of its input least
significant first and stops at the first digit equal to 0; consequently it
writes nothing for every tag that is a multiple of 62, and it is therefore
not injective on nonzero tags. -/
theorem claim_C10 :
    (∀ n : Nat,
      base62_encode n
        = ((Nat.digits 62 n).takeWhile (fun d => d != 0)).map base62Char) ∧
    (∀ n : Nat, 62 ∣ n → base62_encode n = []) ∧
    (∃ a b : Nat, a ≠ 0 ∧ b ≠ 0 ∧ a ≠ b ∧ base62_encode a = base62_encode b) := by
  refine ⟨fun n => base62_go_spec (n + 1) n (Nat.lt_succ_self n), fun n hdvd => ?_,
    ⟨62, 124, by decide, by decide, by decide, rfl⟩⟩
  have h0 : n % 62 = 0 := by omega
  rw [base62_encode, base62_go, if_pos h0]

/-- Witness for C10: the multiple-of-62 part applied at tag 62. -/
theorem claim_C10_witness : base62_encode 62 = [] :=
  claim_C10.2.1 62 (dvd_refl 62)
